import Mathlib

/-!
Verification development for the annscraper repository (Go).

Go strings are modelled as lists of Unicode code points (runes), `GoStr`.
Byte-indexed operations of the Go standard library (`strings.Index`, string
slicing, `len`) are modelled through an explicit UTF-8 encoding of the rune
list, so byte positions and byte lengths agree with Go on valid UTF-8 input.
A byte-level occurrence of one valid UTF-8 string inside another always
starts at a rune boundary and covers whole runes, so the rune-aligned
search below computes the same byte index as Go's `strings.Index`.
-/

namespace Annscraper

/-- A Go string, as its list of Unicode code points (runes). -/
abbrev GoStr := List Nat

/-- Bytes of a Go string (the UTF-8 encoding). -/
abbrev Bytes := List Nat

/-- Embed a Lean string literal as a `GoStr`. -/
def gs (s : String) : GoStr := s.data.map Char.toNat

/-- UTF-8 encoding of one rune, as its list of bytes. -/
def utf8EncodeRune (r : Nat) : Bytes :=
  if r < 0x80 then [r]
  else if r < 0x800 then [0xC0 + r / 64, 0x80 + r % 64]
  else if r < 0x10000 then [0xE0 + r / 4096, 0x80 + r / 64 % 64, 0x80 + r % 64]
  else [0xF0 + r / 262144, 0x80 + r / 4096 % 64, 0x80 + r / 64 % 64, 0x80 + r % 64]

/-- UTF-8 encoding of a Go string. -/
def encodeUtf8 (s : GoStr) : Bytes :=
  s.foldr (fun r acc => utf8EncodeRune r ++ acc) []

/-- Go's `len(s)` on a string: its length in bytes. -/
def byteLen (s : GoStr) : Nat := (encodeUtf8 s).length

/-- Go's `unicode.ToLower` simple case mapping, restricted to the code points
exercised in this development: the ASCII range, plus U+023A/U+023E (whose
lower-case forms U+2C65/U+2C66 are longer in UTF-8: 2 bytes vs 3 bytes) and
U+0130 (whose simple lower-case form `i` is shorter: 2 bytes vs 1 byte).
All other runes are mapped to themselves.  Like the full Unicode table, this
mapping never produces an ASCII upper-case letter. -/
def goToLowerRune (r : Nat) : Nat :=
  if 0x41 ≤ r ∧ r ≤ 0x5A then r + 32
  else if r = 0x23A then 0x2C65
  else if r = 0x23E then 0x2C66
  else if r = 0x130 then 0x69
  else r

/-- Go's `strings.ToLower`: the per-rune simple case mapping. -/
def goToLower (s : GoStr) : GoStr := s.map goToLowerRune

/-- Whether `n` is an initial segment of `h` (helper for substring search). -/
def startsWith : GoStr → GoStr → Bool
  | _, [] => true
  | [], _ :: _ => false
  | a :: s, b :: t => a == b && startsWith s t

/-- Go's `strings.Index h n`: the byte offset of the first occurrence of `n`
in `h`, or `none` for Go's `-1`.  The offset accumulates the UTF-8 byte
lengths of the skipped runes. -/
def goIndex : GoStr → GoStr → Option Nat
  | [], n => if startsWith [] n then some 0 else none
  | r :: t, n =>
    if startsWith (r :: t) n then some 0
    else (goIndex t n).map (fun i => i + (utf8EncodeRune r).length)

/-- Go's `strings.Contains h n`. -/
def goContains (h n : GoStr) : Bool := (goIndex h n).isSome

/-- Go's `unicode.IsSpace`, restricted to the Latin-1 White_Space code points
(the fragment relevant to this development; other space code points are
handled identically by the omitted part of the table). -/
def goIsSpace (r : Nat) : Bool :=
  r = 9 || r = 10 || r = 11 || r = 12 || r = 13 || r = 32 || r = 0x85 || r = 0xA0

/-- Go's `strings.TrimSpace`. -/
def trimSpace (s : GoStr) : GoStr :=
  ((s.dropWhile goIsSpace).reverse.dropWhile goIsSpace).reverse

/-- A lookup in a Go `map`, modelled as an association list. -/
def mapGet {β : Type} (m : List (GoStr × β)) (k : GoStr) : Option β :=
  match m with
  | [] => none
  | (k', v) :: t => if k' = k then some v else mapGet t k

/-- A Go `map` assignment `m[k] = v`. -/
def mapPut {β : Type} (m : List (GoStr × β)) (k : GoStr) (v : β) : List (GoStr × β) :=
  match m with
  | [] => [(k, v)]
  | (k', v') :: t => if k' = k then (k, v) :: t else (k', v') :: mapPut t k v

/-- A read `m[k]` from a Go `map[string]bool`: missing keys read as `false`. -/
def boolGet (m : List (GoStr × Bool)) (k : GoStr) : Bool := (mapGet m k).getD false

/-! ## Data model (internal/types) -/

/-- `types.Announcement`.  `DateTime` is a calendar date triple (year, month,
day); `none` is Go's zero `time.Time` (only the `Year()/Month()/Day()`
projections and `IsZero()` are used by the embedded code). -/
structure Announcement where
  Ticker : GoStr
  DateTime : Option (Nat × Nat × Nat)
  Title : GoStr
  PDFURL : GoStr
  IsPriceSensitive : Bool
deriving DecidableEq

/-- `types.Match`.  The embedded `Announcement` is field `ann`; `Context` is
the raw bytes of the context-snippet string (snippet construction slices the
body text at byte positions). -/
structure Match where
  ann : Announcement
  KeywordsFound : List GoStr
  TickerMatched : Bool
  Context : Bytes
deriving DecidableEq

/-- `types.TickerMatchPlaceholder` (also `history.tickerMatchPlaceholder`). -/
def tickerMatchPlaceholder : GoStr := gs "__TICKER_MATCHED__"

/-! ## History store (package history) -/

/-- `history.History`.  The Go `map[string]map[string]bool` is modelled as an
association list whose values are boolean-valued association lists. -/
structure History where
  ReportDate : GoStr
  ReportedMatches : List (GoStr × List (GoStr × Bool))
deriving DecidableEq

/-- The entity key `ann.Ticker + "|" + ann.Title` used by both
`FilterNewMatches` and `RecordMatches`. -/
def entityKey (ann : Announcement) : GoStr := ann.Ticker ++ gs "|" ++ ann.Title

/-- `Manager.FilterNewMatches` (the mutex is not modelled; the history value
is passed explicitly). -/
def FilterNewMatches (h : History) (ann : Announcement) (foundKeywords : List GoStr)
    (isTickerMatch : Bool) : List GoStr :=
  let key := ann.Ticker ++ gs "|" ++ ann.Title
  let entry := mapGet h.ReportedMatches key
  if isTickerMatch && foundKeywords.isEmpty then
    match entry with
    | some reportedKws =>
      if boolGet reportedKws tickerMatchPlaceholder then [] else [tickerMatchPlaceholder]
    | none => [tickerMatchPlaceholder]
  else if foundKeywords.isEmpty then []
  else
    match entry with
    | none => foundKeywords
    | some reportedKws => foundKeywords.filter (fun kw => !(boolGet reportedKws kw))

/-- The body of `Manager.RecordMatches` for one match: ensure the entry for
the match's entity key exists, set the sentinel token when the match is
ticker-only, and set every found keyword. -/
def recordOne (rm : List (GoStr × List (GoStr × Bool))) (m : Match) :
    List (GoStr × List (GoStr × Bool)) :=
  let key := m.ann.Ticker ++ gs "|" ++ m.ann.Title
  let e0 := (mapGet rm key).getD []
  let e1 := if m.KeywordsFound.isEmpty && m.TickerMatched
    then mapPut e0 tickerMatchPlaceholder true else e0
  let e2 := m.KeywordsFound.foldl (fun acc kw => mapPut acc kw true) e1
  mapPut rm key e2

/-- `Manager.RecordMatches` followed by the `saveHistory` date stamp (the
save re-stamps `ReportDate` with the current report date before writing). -/
def RecordMatches (h : History) (ms : List Match) (today : GoStr) : History :=
  { ReportDate := today, ReportedMatches := ms.foldl recordOne h.ReportedMatches }

/-- Outcome of reading and unmarshalling the persisted history file in
`Manager.loadHistory`: file missing, read error, JSON unmarshal error, or a
successfully parsed record. -/
inductive ReadResult where
  | missing
  | readFailed
  | badJson
  | parsed (h : History)

/-- `Manager.loadHistory`: the in-memory history is first reset to an empty
record stamped `today`; only a successfully parsed record whose `ReportDate`
equals `today` replaces it. -/
def loadHistory (today : GoStr) (r : ReadResult) : History :=
  match r with
  | .parsed h =>
    if h.ReportDate = today then h else { ReportDate := today, ReportedMatches := [] }
  | _ => { ReportDate := today, ReportedMatches := [] }

/-- The `filterNew` contract, modelled from the spec's words (§4.5): if
`tickerMatched` is true and the candidate list is empty, the sentinel token is
substituted as the sole candidate; the result is the subset of candidates not
already present in the stored token set for the entity key (an absent entity
key stores nothing, so everything passes). -/
def filterNewSpec (h : History) (key : GoStr) (candidates : List GoStr)
    (tickerMatched : Bool) : List GoStr :=
  let cands := if tickerMatched && candidates.isEmpty then [tickerMatchPlaceholder]
    else candidates
  let stored := (mapGet h.ReportedMatches key).getD []
  cands.filter (fun t => !(boolGet stored t))

/-! ## Matcher and snippet construction (internal/asx) -/

/-- `asx.isTickerMatch`: exact membership of the announcement's ticker in the
criteria ticker set (the Go map is just membership in the slice). -/
def isTickerMatch (ticker : GoStr) (tickers : List GoStr) : Bool :=
  if tickers.isEmpty then false else tickers.contains ticker

/-- `asx.findKeywords`: one pass over the criteria keywords in order; each
keyword is checked against the lower-cased title first, else the lower-cased
body text. -/
def findKeywords (title text : GoStr) (keywords : List GoStr) : List GoStr :=
  if keywords.isEmpty then []
  else
    let lowerTitle := goToLower title
    let lowerText := goToLower text
    keywords.foldl (fun found kw =>
      if goContains lowerTitle kw then found ++ [kw]
      else if goContains lowerText kw then found ++ [kw]
      else found) []

/-- `asx.applyHistoryFilter`. -/
def applyHistoryFilter (ann : Announcement) (foundKeywords : List GoStr)
    (tickerMatch : Bool) (filterFn : Announcement → List GoStr → Bool → List GoStr) :
    List GoStr :=
  let historyKeywords := if tickerMatch && foundKeywords.isEmpty
    then [tickerMatchPlaceholder] else foundKeywords
  filterFn ann historyKeywords tickerMatch

/-- `asx.normalizePlaceholder`. -/
def normalizePlaceholder (keywords : List GoStr) : List GoStr × Bool :=
  if keywords = [tickerMatchPlaceholder] then ([], true) else (keywords, false)

/-- `asx.getSnippet`.  Byte positions: the keyword is searched in the
lower-cased text but the slice is taken from the original text's bytes.
`none` models the Go slice expression panicking (`start > end`); `some []`
is Go's `""` when the keyword does not occur. -/
def getSnippet (fullText keyword : GoStr) : Option Bytes :=
  let lowerText := goToLower fullText
  let lowerKeyword := goToLower keyword
  match goIndex lowerText lowerKeyword with
  | none => some []
  | some index =>
    let start := index - 50
    let stop := min (index + byteLen lowerKeyword + 50) (byteLen fullText)
    if start ≤ stop then
      let snippet := ((encodeUtf8 fullText).drop start).take (stop - start)
      let snippet := (if 0 < start then gs "... " else []) ++ snippet ++
        (if stop < byteLen fullText then gs " ..." else [])
      some (snippet.map (fun b => if b = 10 then 32 else b))
    else none

/-- `asx.buildContextSnippet`.  `none` propagates a `getSnippet` panic. -/
def buildContextSnippet (ann : Announcement) (text : GoStr) (keywords : List GoStr)
    (isPlaceholderMatch : Bool) : Option Bytes :=
  match keywords with
  | keyword :: _ =>
    if goContains (goToLower ann.Title) keyword then
      some (encodeUtf8 (ann.Title ++ gs " (Match found in title)"))
    else getSnippet text keyword
  | [] =>
    if isPlaceholderMatch then
      some (encodeUtf8 (gs "Match found based on ticker " ++ ann.Ticker ++ gs " only."))
    else some []

/-- Result of the per-announcement pipeline (`asx.filterAndAnnotate`):
dropped without a match, emitted with a match, or crashed in the snippet
slice. -/
inductive PipeResult where
  | panicked
  | noMatch
  | emitted (m : Match)
deriving DecidableEq

/-- The pure tail of `asx.filterAndAnnotate`: the extracted body text is
taken as an input (runs whose download or extraction failed are dropped
before this point), the history filter is the real `FilterNewMatches` on an
explicit history value, and the AI annotation (which does not affect the
`Match`) is elided. -/
def filterAndAnnotate (hist : History) (ann : Announcement)
    (keywords tickers : List GoStr) (text : GoStr) : PipeResult :=
  let tickerMatch := isTickerMatch ann.Ticker tickers
  let foundKeywords := findKeywords ann.Title text keywords
  if foundKeywords.isEmpty && !tickerMatch then .noMatch
  else
    let newKeywords := applyHistoryFilter ann foundKeywords tickerMatch
      (fun a k t => FilterNewMatches hist a k t)
    if newKeywords.isEmpty then .noMatch
    else
      let fin := normalizePlaceholder newKeywords
      match buildContextSnippet ann text fin.1 fin.2 with
      | none => .panicked
      | some ctx => .emitted ⟨ann, fin.1, tickerMatch, ctx⟩

/-! ## Markit feed fetcher (package asx, Markit API version) -/

/-- One item of the Markit announcements response (`companies` is unused by
the embedded code and omitted). -/
structure MarkitItem where
  date : GoStr
  documentKey : GoStr
  headline : GoStr
  symbol : GoStr
deriving DecidableEq

/-- `asx.markitPDFBaseURL`. -/
def markitPDFBaseURL : GoStr :=
  gs "https://cdn-api.markitdigital.com/apiman-gateway/ASX/asx-research/1.0/file"

/-- The item loop of `asx.fetchAnnouncements` (one page): skip items with an
empty `DocumentKey`, skip items whose date fails to parse, apply the
target-date filter (year/month/day equality; `none` is Go's zero
`time.Time`), and build the `Announcement`.  `parseDate` models
`time.Parse(time.RFC3339, ·)` abstractly (`none` = parse error); the second
component is `hasMore = len(items) > 0`. -/
def fetchAnnouncements (parseDate : GoStr → Option (Nat × Nat × Nat))
    (items : List MarkitItem) (targetDate : Option (Nat × Nat × Nat)) :
    List Announcement × Bool :=
  let anns := items.foldl (fun acc item =>
    if item.documentKey.isEmpty then acc
    else
      match parseDate item.date with
      | none => acc
      | some itemDate =>
        if (match targetDate with
            | some td => decide (itemDate ≠ td)
            | none => false) then acc
        else
          let ann : Announcement :=
            { Ticker := item.symbol, Title := item.headline,
              IsPriceSensitive := true, DateTime := some itemDate,
              PDFURL := markitPDFBaseURL ++ gs "/" ++ item.documentKey }
          acc ++ [ann]) []
  (anns, decide (0 < items.length))

/-- The pagination loop of `asx.FetchAnnouncements`, on the success path
(a page fetch error aborts the whole fetch and is not modelled here).  The
upstream feed is modelled as the finite list of its successive pages; a
request past the end of the feed yields a page with no items, for which the
loop appends nothing and stops (`hasMore = false`).  `pageSize` is 100. -/
def fetchLoop (parseDate : GoStr → Option (Nat × Nat × Nat))
    (pages : List (List MarkitItem)) (targetDate : Option (Nat × Nat × Nat))
    (maxResults : Nat) (acc : List Announcement) : List Announcement :=
  match pages with
  | [] => acc
  | pg :: rest =>
    let fetched := fetchAnnouncements parseDate pg targetDate
    let acc2 := acc ++ fetched.1
    if !fetched.2 || fetched.1.length < 100 then acc2
    else if 0 < maxResults && maxResults ≤ acc2.length then acc2.take maxResults
    else fetchLoop parseDate rest targetDate maxResults acc2

/-- `asx.FetchAnnouncements` on the success path: paginate from an empty
accumulator.  `maxResults` is `params.MaxResults` (`0` = unlimited). -/
def FetchAnnouncements (parseDate : GoStr → Option (Nat × Nat × Nat))
    (pages : List (List MarkitItem)) (targetDate : Option (Nat × Nat × Nat))
    (maxResults : Nat) : List Announcement :=
  fetchLoop parseDate pages targetDate maxResults []

/-! ## HTML feed scraper (package asx, ASX page version) -/

/-- A parsed HTML node: whether it is an element node, its tag/text data,
and its children. -/
inductive HNode where
  | mk (isElement : Bool) (data : GoStr) (children : List HNode)

/-- Whether the node is an element node. -/
def HNode.isElement : HNode → Bool
  | .mk e _ _ => e

/-- The node's tag or text data. -/
def HNode.data : HNode → GoStr
  | .mk _ d _ => d

/-- The node's children. -/
def HNode.children : HNode → List HNode
  | .mk _ _ c => c

/-- The zero `types.Announcement` (`currentAnn = types.Announcement{}`). -/
def emptyAnnouncement : Announcement :=
  { Ticker := [], DateTime := none, Title := [], PDFURL := [], IsPriceSensitive := false }

/-- The row body of `asx.traverseAndCollect`: fold the direct `td` children
of a `tr` through the cell processor, counting cells.  The processor is the
`cellProcessorFunc` argument, modelled as a pure state transformer. -/
def processRow (processor : HNode → Nat → Announcement → Announcement) (n : HNode) :
    Announcement :=
  (n.children.foldl (fun st c =>
    if c.isElement && c.data = gs "td" then (st.1 + 1, processor c (st.1 + 1) st.2)
    else st) ((0 : Nat), emptyAnnouncement)).2

mutual

/-- The recursive traversal `f` of `asx.traverseAndCollect`.  The state is
the pair of the (set-once) `inTableBody` flag and the collected
announcements.  A row whose `PDFURL` is non-empty is appended unless the
price-sensitivity filter rejects it, in which case the Go code returns early
and skips the row's children. -/
def traverseNode (processor : HNode → Nat → Announcement → Announcement)
    (filterPriceSensitive : Bool) (n : HNode) (st : Bool × List Announcement) :
    Bool × List Announcement :=
  match n with
  | .mk e d cs =>
    let inTB := st.1 || (e && d = gs "tbody")
    if inTB && e && d = gs "tr" then
      let currentAnn := processRow processor (.mk e d cs)
      if currentAnn.PDFURL ≠ [] then
        if filterPriceSensitive && !currentAnn.IsPriceSensitive then (inTB, st.2)
        else traverseList processor filterPriceSensitive cs (inTB, st.2 ++ [currentAnn])
      else traverseList processor filterPriceSensitive cs (inTB, st.2)
    else traverseList processor filterPriceSensitive cs (inTB, st.2)
termination_by sizeOf n

/-- Sequential traversal of a node's children, threading the state. -/
def traverseList (processor : HNode → Nat → Announcement → Announcement)
    (filterPriceSensitive : Bool) (ns : List HNode) (st : Bool × List Announcement) :
    Bool × List Announcement :=
  match ns with
  | [] => st
  | n :: t => traverseList processor filterPriceSensitive t
      (traverseNode processor filterPriceSensitive n st)
termination_by sizeOf ns

end

/-- `asx.traverseAndCollect`: run the traversal from the document root with
an empty state and return the collected announcements. -/
def traverseAndCollect (processor : HNode → Nat → Announcement → Announcement)
    (filterPriceSensitive : Bool) (doc : HNode) : List Announcement :=
  (traverseNode processor filterPriceSensitive doc (false, [])).2

/-! ## PDF text extraction (asx.extractTextFromPDF) -/

/-- The error kinds of `asx.extractTextFromPDF`'s worker goroutine and
timeout (the pre-subprocess HTTP failures return before the goroutine is
spawned and are not distinguished here). -/
inductive ExtractErr where
  | tmpCreateFailed
  | tmpCloseFailed
  | writeTmpFailed
  | toolNotFound (stderr : GoStr)
  | toolFailed (msg : GoStr)
  | emptyExtraction
  | timedOut
deriving DecidableEq

/-- Outcome of `cmd.Run()` for the external `pdftotext` process: the process
failed to run or reported failure (with the Go error text and the captured
stderr), or it completed with the captured stdout. -/
inductive CmdRun where
  | failed (errText stderr : GoStr)
  | completed (stdout : GoStr)

/-- The channel sends of the worker goroutine of `asx.extractTextFromPDF`,
in program order: the list of errors sent to `errChan` and the optional text
sent to `resultChan`.  A failed `tmpFile.Close()` sends an error but does
not return, so the goroutine may go on to send a second message; `errChan`
has capacity one, so only the first error send can ever be received. -/
def workerSends (tmpCreateOk closeOk writeOk : Bool) (cmd : CmdRun) :
    List ExtractErr × Option GoStr :=
  if !tmpCreateOk then ([.tmpCreateFailed], none)
  else
    let closeErrs : List ExtractErr := if closeOk then [] else [.tmpCloseFailed]
    if !writeOk then (closeErrs ++ [.writeTmpFailed], none)
    else
      match cmd with
      | .failed errText stderr =>
        let cmdErr := gs "pdftotext failed: " ++ errText ++ gs ". Stderr: " ++
          trimSpace stderr
        if goContains cmdErr (gs "not found") then
          (closeErrs ++ [.toolNotFound (trimSpace stderr)], none)
        else (closeErrs ++ [.toolFailed cmdErr], none)
      | .completed stdout =>
        if trimSpace stdout = [] then (closeErrs ++ [.emptyExtraction], none)
        else (closeErrs, some stdout)

/-- The possible return values of `asx.extractTextFromPDF` after the worker
goroutine is spawned, as the pair (returned text, returned error).  The
`select` delivers the first value sent to `errChan` (returning `("", err)`),
the value sent to `resultChan` (returning `(text, nil)`), or the timeout
(returning `("", timeout error)`), depending on the race. -/
def extractOutcome (sends : List ExtractErr × Option GoStr)
    (o : GoStr × Option ExtractErr) : Prop :=
  (∃ e, sends.1.head? = some e ∧ o = ([], some e))
  ∨ (∃ t, sends.2 = some t ∧ o = (t, none))
  ∨ o = ([], some .timedOut)

/-! ## Map lemmas -/

theorem mapGet_mapPut {β : Type} (m : List (GoStr × β)) (k k' : GoStr) (v : β) :
    mapGet (mapPut m k v) k' = if k = k' then some v else mapGet m k' := by
  induction m with
  | nil => simp [mapPut, mapGet]
  | cons kv t ih =>
    obtain ⟨k0, v0⟩ := kv
    by_cases h0 : k0 = k
    · subst h0
      by_cases h1 : k0 = k' <;> simp [mapPut, mapGet, h1]
    · by_cases h1 : k0 = k'
      · subst h1
        simp [mapPut, mapGet, h0, Ne.symm h0, ih]
      · simp [mapPut, mapGet, h0, h1, ih]

theorem boolGet_mapPut (m : List (GoStr × Bool)) (k k' : GoStr) (v : Bool) :
    boolGet (mapPut m k v) k' = if k = k' then v else boolGet m k' := by
  simp only [boolGet, mapGet_mapPut]
  split <;> rfl

theorem boolGet_foldl_put (l : List GoStr) (e : List (GoStr × Bool)) (K : GoStr) :
    boolGet (l.foldl (fun a kw => mapPut a kw true) e) K
      = (decide (K ∈ l) || boolGet e K) := by
  induction l generalizing e with
  | nil => simp
  | cons x t ih =>
    by_cases hx : x = K
    · subst hx
      simp [List.foldl_cons, ih, boolGet_mapPut]
    · simp [List.foldl_cons, ih, boolGet_mapPut, hx, Ne.symm hx]

/-! ## History store lemmas -/

theorem recordOne_sets (rm : List (GoStr × List (GoStr × Bool))) (m : Match)
    (K : GoStr) (hK : K ∈ m.KeywordsFound) :
    boolGet ((mapGet (recordOne rm m) (m.ann.Ticker ++ gs "|" ++ m.ann.Title)).getD [])
      K = true := by
  simp only [recordOne]
  rw [mapGet_mapPut]
  simp [boolGet_foldl_put, hK]

theorem recordOne_keeps (rm : List (GoStr × List (GoStr × Bool))) (m : Match)
    (k K : GoStr) (h : boolGet ((mapGet rm k).getD []) K = true) :
    boolGet ((mapGet (recordOne rm m) k).getD []) K = true := by
  simp only [recordOne]
  rw [mapGet_mapPut]
  by_cases hk : m.ann.Ticker ++ gs "|" ++ m.ann.Title = k
  · rw [if_pos hk]
    simp only [hk, Option.getD_some, boolGet_foldl_put]
    have he1 : boolGet (if m.KeywordsFound.isEmpty && m.TickerMatched
        then mapPut ((mapGet rm k).getD []) tickerMatchPlaceholder true
        else (mapGet rm k).getD []) K = true := by
      split
      · rw [boolGet_mapPut]
        split
        · rfl
        · exact h
      · exact h
    rw [he1]
    simp
  · rw [if_neg hk]
    exact h

theorem foldl_recordOne_keeps (ms : List Match) (rm : List (GoStr × List (GoStr × Bool)))
    (k K : GoStr) (h : boolGet ((mapGet rm k).getD []) K = true) :
    boolGet ((mapGet (ms.foldl recordOne rm) k).getD []) K = true := by
  induction ms generalizing rm with
  | nil => exact h
  | cons x t ih => exact ih _ (recordOne_keeps rm x k K h)

theorem foldl_recordOne_sets (ms : List Match) (rm : List (GoStr × List (GoStr × Bool)))
    (m : Match) (K : GoStr) (hm : m ∈ ms) (hK : K ∈ m.KeywordsFound) :
    boolGet ((mapGet (ms.foldl recordOne rm) (m.ann.Ticker ++ gs "|" ++ m.ann.Title)).getD [])
      K = true := by
  induction ms generalizing rm with
  | nil => cases hm
  | cons x t ih =>
    rcases List.mem_cons.mp hm with hx | ht
    · subst hx
      exact foldl_recordOne_keeps t _ _ _ (recordOne_sets rm m K hK)
    · exact ih _ ht

/-- `FilterNewMatches` computes exactly the spec-side `filterNew` contract. -/
theorem FilterNewMatches_eq_spec (h : History) (ann : Announcement)
    (cands : List GoStr) (tm : Bool) :
    FilterNewMatches h ann cands tm = filterNewSpec h (entityKey ann) cands tm := by
  simp only [FilterNewMatches, filterNewSpec, entityKey]
  by_cases h1 : tm && cands.isEmpty
  · simp only [if_pos h1]
    cases hent : mapGet h.ReportedMatches (ann.Ticker ++ gs "|" ++ ann.Title) with
    | none => simp [boolGet, mapGet]
    | some rk =>
      simp only [Option.getD_some, List.filter]
      split <;> simp_all
  · simp only [if_neg h1]
    by_cases h2 : cands.isEmpty = true
    · have : cands = [] := by simpa using h2
      simp [this]
    · simp only [if_neg h2]
      cases hent : mapGet h.ReportedMatches (ann.Ticker ++ gs "|" ++ ann.Title) with
      | none =>
        simp [boolGet, mapGet]
      | some rk => simp

/-! ## Substring-search lemmas -/

theorem startsWith_append (n : GoStr) :
    ∀ h, startsWith h n = true → ∃ suf, h = n ++ suf := by
  induction n with
  | nil => exact fun h _ => ⟨h, rfl⟩
  | cons b t ih =>
    intro h hs
    cases h with
    | nil => simp [startsWith] at hs
    | cons a s =>
      simp only [startsWith, Bool.and_eq_true, beq_iff_eq] at hs
      obtain ⟨hab, hst⟩ := hs
      obtain ⟨suf, hsuf⟩ := ih s hst
      exact ⟨suf, by simp [hab, hsuf]⟩

theorem goIndex_some_split (n : GoStr) :
    ∀ (h : GoStr) (i : Nat), goIndex h n = some i → ∃ pre suf, h = pre ++ n ++ suf := by
  intro h
  induction h with
  | nil =>
    intro i hi
    simp only [goIndex] at hi
    split at hi
    · obtain ⟨suf, hsuf⟩ := startsWith_append n [] (by assumption)
      exact ⟨[], suf, hsuf⟩
    · cases hi
  | cons r t ih =>
    intro i hi
    simp only [goIndex] at hi
    split at hi
    · obtain ⟨suf, hsuf⟩ := startsWith_append n (r :: t) (by assumption)
      exact ⟨[], suf, hsuf⟩
    · obtain ⟨j, hj, _⟩ := Option.map_eq_some'.mp hi
      obtain ⟨pre, suf, hps⟩ := ih j hj
      exact ⟨r :: pre, suf, by simp [hps]⟩

theorem goContains_sub_mem (h n : GoStr) (hc : goContains h n = true) :
    ∀ r ∈ n, r ∈ h := by
  intro r hr
  obtain ⟨i, hi⟩ := Option.isSome_iff_exists.mp hc
  obtain ⟨pre, suf, hps⟩ := goIndex_some_split n h i hi
  subst hps
  simp [hr]

theorem goToLowerRune_ne_T (r : Nat) : goToLowerRune r ≠ 84 := by
  unfold goToLowerRune
  split_ifs with h1 h2 h3 h4 <;> omega

theorem toLower_no_T (s : GoStr) : (84 : Nat) ∉ goToLower s := by
  intro hmem
  obtain ⟨r, _, hr⟩ := List.mem_map.mp hmem
  exact goToLowerRune_ne_T r hr

theorem goContains_toLower_placeholder (s : GoStr) :
    goContains (goToLower s) tickerMatchPlaceholder = false := by
  cases hc : goContains (goToLower s) tickerMatchPlaceholder with
  | false => rfl
  | true =>
    exfalso
    have h84 : (84 : Nat) ∈ tickerMatchPlaceholder := by decide
    exact toLower_no_T s (goContains_sub_mem _ _ hc 84 h84)

/-! ## Matcher lemmas -/

theorem foldl_keyword_filter (p q : GoStr → Bool) (l : List GoStr) (acc : List GoStr) :
    (l.foldl (fun found kw =>
        if p kw then found ++ [kw] else if q kw then found ++ [kw] else found) acc)
      = acc ++ l.filter (fun kw => p kw || q kw) := by
  induction l generalizing acc with
  | nil => simp
  | cons x t ih =>
    simp only [List.foldl_cons, List.filter]
    by_cases hp : p x
    · simp [hp, ih]
    · by_cases hq : q x
      · simp [hp, hq, ih]
      · simp [hp, hq, ih]

/-- `findKeywords` returns exactly the criteria keywords that occur in the
lower-cased title or body, in criteria order. -/
theorem findKeywords_eq_filter (title text : GoStr) (keywords : List GoStr) :
    findKeywords title text keywords
      = keywords.filter (fun kw =>
          goContains (goToLower title) kw || goContains (goToLower text) kw) := by
  simp only [findKeywords]
  by_cases hk : keywords.isEmpty
  · have : keywords = [] := by simpa using hk
    simp [this]
  · simp only [if_neg hk]
    simpa using foldl_keyword_filter (goContains (goToLower title))
      (goContains (goToLower text)) keywords []

theorem findKeywords_no_placeholder (title text : GoStr) (kws : List GoStr) :
    tickerMatchPlaceholder ∉ findKeywords title text kws := by
  rw [findKeywords_eq_filter]
  intro hm
  have hor := (List.mem_filter.mp hm).2
  simp only [Bool.or_eq_true] at hor
  rcases hor with hc | hc <;>
    simp [goContains_toLower_placeholder] at hc

theorem FilterNewMatches_mem_cands (h : History) (ann : Announcement)
    (kws : List GoStr) (K : GoStr) (hK : K ∈ FilterNewMatches h ann kws false) :
    K ∈ kws := by
  rw [FilterNewMatches_eq_spec] at hK
  simp [filterNewSpec] at hK
  exact hK.1

/-! ## Generic fold-membership lemma -/

theorem foldl_mem_invariant {α β : Type} (P : α → Prop) (g : List α → β → List α)
    (hg : ∀ acc x a, a ∈ g acc x → a ∈ acc ∨ P a) :
    ∀ (l : List β) (acc : List α), (∀ a ∈ acc, P a) → ∀ a ∈ l.foldl g acc, P a := by
  intro l
  induction l with
  | nil => exact fun acc hacc a ha => hacc a ha
  | cons x t ih =>
    intro acc hacc a ha
    exact ih (g acc x) (fun a' ha' => (hg acc x a' ha').elim (hacc a') id) a ha

/-! ## Feed fetcher lemmas -/

theorem fetchAnnouncements_pdf_nonempty (parseDate : GoStr → Option (Nat × Nat × Nat))
    (items : List MarkitItem) (targetDate : Option (Nat × Nat × Nat)) :
    ∀ a ∈ (fetchAnnouncements parseDate items targetDate).1, a.PDFURL ≠ [] := by
  have hbase : markitPDFBaseURL ≠ [] := by decide
  refine foldl_mem_invariant _ _ ?_ items [] (by simp)
  intro acc x a ha
  dsimp only at ha
  split at ha
  · exact Or.inl ha
  · split at ha
    · exact Or.inl ha
    · split at ha
      · exact Or.inl ha
      · rcases List.mem_append.mp ha with h1 | h1
        · exact Or.inl h1
        · refine Or.inr ?_
          have ha2 := List.mem_singleton.mp h1
          rw [ha2]
          intro hc
          exact hbase (List.append_eq_nil.mp (List.append_eq_nil.mp hc).1).1

theorem fetchLoop_pdf_nonempty (parseDate : GoStr → Option (Nat × Nat × Nat))
    (targetDate : Option (Nat × Nat × Nat)) (maxResults : Nat) :
    ∀ (pages : List (List MarkitItem)) (acc : List Announcement),
      (∀ a ∈ acc, a.PDFURL ≠ []) →
      ∀ a ∈ fetchLoop parseDate pages targetDate maxResults acc, a.PDFURL ≠ [] := by
  intro pages
  induction pages with
  | nil => exact fun acc hacc => hacc
  | cons pg rest ih =>
    intro acc hacc a ha
    have hacc2 : ∀ a ∈ acc ++ (fetchAnnouncements parseDate pg targetDate).1,
        a.PDFURL ≠ [] := by
      intro a' ha'
      rcases List.mem_append.mp ha' with h1 | h1
      · exact hacc a' h1
      · exact fetchAnnouncements_pdf_nonempty parseDate pg targetDate a' h1
    simp only [fetchLoop] at ha
    split at ha
    · exact hacc2 a ha
    · split at ha
      · exact hacc2 a (List.take_subset _ _ ha)
      · exact ih _ hacc2 a ha

/-! ## HTML scraper lemmas -/

mutual

theorem traverseNode_pdf_nonempty (p : HNode → Nat → Announcement → Announcement)
    (fps : Bool) (n : HNode) (st : Bool × List Announcement)
    (h : ∀ a ∈ st.2, a.PDFURL ≠ []) :
    ∀ a ∈ (traverseNode p fps n st).2, a.PDFURL ≠ [] := by
  cases n with
  | mk e d cs =>
    rw [traverseNode]
    split
    · dsimp only
      split
      · split
        · exact h
        · refine traverseList_pdf_nonempty p fps cs _ ?_
          intro a ha
          rcases List.mem_append.mp ha with h1 | h1
          · exact h a h1
          · rw [List.mem_singleton.mp h1]
            assumption
      · exact traverseList_pdf_nonempty p fps cs _ h
    · exact traverseList_pdf_nonempty p fps cs _ h

theorem traverseList_pdf_nonempty (p : HNode → Nat → Announcement → Announcement)
    (fps : Bool) (ns : List HNode) (st : Bool × List Announcement)
    (h : ∀ a ∈ st.2, a.PDFURL ≠ []) :
    ∀ a ∈ (traverseList p fps ns st).2, a.PDFURL ≠ [] := by
  cases ns with
  | nil => rw [traverseList]; exact h
  | cons n t =>
    rw [traverseList]
    exact traverseList_pdf_nonempty p fps t _ (traverseNode_pdf_nonempty p fps n st h)

end

/-! ## Extractor lemmas -/

theorem workerSends_result (a b c : Bool) (cmd : CmdRun) (t : GoStr)
    (h : (workerSends a b c cmd).2 = some t) : trimSpace t ≠ [] := by
  simp only [workerSends] at h
  split at h
  · cases h
  · split at h
    · cases h
    · cases cmd with
      | failed errText stderr =>
        dsimp only at h
        split at h <;> cases h
      | completed stdout =>
        dsimp only at h
        split at h
        · cases h
        · cases h
          assumption

theorem workerSends_blank (a b c : Bool) (stdout : GoStr)
    (hb : trimSpace stdout = []) :
    (workerSends a b c (.completed stdout)).2 = none := by
  simp only [workerSends]
  split
  · rfl
  · split
    · rfl
    · simp [hb]

/-! ## Claim theorems -/

/-- Claim C1: after `RecordMatches` has recorded a match whose keyword list
contains `K`, a subsequent `FilterNewMatches` call for the same announcement
(same ticker and title, hence the same entity key) with `K` among its
candidates returns a list that does not contain `K`; in particular the call
with candidate list `[K]` and `tickerMatched = false` returns the empty
list. -/
theorem c1_record_then_suppress (hist : History) (ms : List Match) (today : GoStr)
    (m : Match) (K : GoStr) (ann : Announcement) (cands : List GoStr) (tm : Bool)
    (hm : m ∈ ms) (hK : K ∈ m.KeywordsFound)
    (ht : ann.Ticker = m.ann.Ticker) (hti : ann.Title = m.ann.Title) :
    (K ∈ cands → K ∉ FilterNewMatches (RecordMatches hist ms today) ann cands tm)
    ∧ FilterNewMatches (RecordMatches hist ms today) ann [K] false = [] := by
  have hrec : boolGet ((mapGet (RecordMatches hist ms today).ReportedMatches
      (ann.Ticker ++ gs "|" ++ ann.Title)).getD []) K = true := by
    rw [ht, hti]
    exact foldl_recordOne_sets ms hist.ReportedMatches m K hm hK
  constructor
  · intro _ hmem
    rw [FilterNewMatches_eq_spec] at hmem
    simp only [filterNewSpec, entityKey] at hmem
    have h2 := (List.mem_filter.mp hmem).2
    rw [hrec] at h2
    simp at h2
  · rw [FilterNewMatches_eq_spec]
    simp only [filterNewSpec, entityKey]
    have hrec2 := hrec
    rw [List.append_assoc] at hrec2
    simp [hrec, hrec2]

/-- Witness for C1: a concrete match on keyword "dividend" is recorded and
the repeat query for the same announcement is suppressed. -/
theorem c1_witness :
    gs "dividend" ∈ [gs "dividend"]
    ∧ FilterNewMatches
        (RecordMatches ⟨gs "2026-10-11", []⟩
          [⟨⟨gs "ABC", none, gs "ABC announces dividend", gs "u", false⟩,
            [gs "dividend"], false, []⟩]
          (gs "2026-10-11"))
        ⟨gs "ABC", none, gs "ABC announces dividend", gs "u", false⟩
        [gs "dividend"] false = [] :=
  ⟨by decide,
    (c1_record_then_suppress ⟨gs "2026-10-11", []⟩
      [⟨⟨gs "ABC", none, gs "ABC announces dividend", gs "u", false⟩,
        [gs "dividend"], false, []⟩]
      (gs "2026-10-11")
      ⟨⟨gs "ABC", none, gs "ABC announces dividend", gs "u", false⟩,
        [gs "dividend"], false, []⟩
      (gs "dividend")
      ⟨gs "ABC", none, gs "ABC announces dividend", gs "u", false⟩
      [gs "dividend"] false (by decide) (by decide) rfl rfl).2⟩

/-- Claim C2: a persisted record whose date differs from today is discarded
entirely by `loadHistory` (the result is an empty record stamped today, on
which no previously reported pair suppresses anything), and a record whose
date equals today is used as-is. -/
theorem c2_day_rollover (today : GoStr) (h : History) :
    ((h.ReportDate ≠ today →
        loadHistory today (.parsed h) = { ReportDate := today, ReportedMatches := [] })
      ∧ (h.ReportDate = today → loadHistory today (.parsed h) = h))
    ∧ ∀ (ann : Announcement) (kws : List GoStr) (tm : Bool),
        FilterNewMatches { ReportDate := today, ReportedMatches := [] } ann kws tm
          = if tm && kws.isEmpty then [tickerMatchPlaceholder] else kws := by
  refine ⟨⟨fun hne => by simp [loadHistory, hne], fun heq => by simp [loadHistory, heq]⟩, ?_⟩
  intro ann kws tm
  rw [FilterNewMatches_eq_spec]
  simp [filterNewSpec, boolGet, mapGet]

/-- Witness for C2: a stale record from the previous day is discarded. -/
theorem c2_witness :
    loadHistory (gs "2026-10-11")
      (.parsed ⟨gs "2026-10-10", [(gs "ABC|T", [(gs "k", true)])]⟩)
      = { ReportDate := gs "2026-10-11", ReportedMatches := [] } :=
  (c2_day_rollover (gs "2026-10-11")
    ⟨gs "2026-10-10", [(gs "ABC|T", [(gs "k", true)])]⟩).1.1 (by decide)

/-- Claim C3: `FilterNewMatches` satisfies the spec's `filterNew` contract
for every history state, entity key, candidate list and flag: sentinel
substitution for an empty ticker-matched candidate list, result = the subset
of candidates not already stored, and full pass-through for an entity key
with no stored entry. -/
theorem c3_filter_contract (h : History) (ann : Announcement)
    (cands : List GoStr) (tm : Bool) :
    FilterNewMatches h ann cands tm = filterNewSpec h (entityKey ann) cands tm
    ∧ (mapGet h.ReportedMatches (entityKey ann) = none →
        FilterNewMatches h ann cands tm
          = if tm && cands.isEmpty then [tickerMatchPlaceholder] else cands) := by
  refine ⟨FilterNewMatches_eq_spec h ann cands tm, fun hnone => ?_⟩
  rw [FilterNewMatches_eq_spec]
  simp [filterNewSpec, hnone, boolGet, mapGet]

/-- Witness for C3: an entity key with no stored entry and an empty
ticker-matched candidate list yields the sentinel token. -/
theorem c3_witness :
    mapGet (History.ReportedMatches ⟨gs "d", []⟩)
        (entityKey ⟨gs "XYZ", none, gs "T", gs "u", false⟩) = none
    ∧ FilterNewMatches ⟨gs "d", []⟩ ⟨gs "XYZ", none, gs "T", gs "u", false⟩ [] true
        = [tickerMatchPlaceholder] :=
  ⟨by decide, by
    have h2 := (c3_filter_contract ⟨gs "d", []⟩
      ⟨gs "XYZ", none, gs "T", gs "u", false⟩ [] true).2 (by decide)
    simpa using h2⟩

/-- Claim C4, counterexample: with criteria `["alpha", "beta"]`, title
"beta" and body "alpha", `findKeywords` returns `["alpha", "beta"]`, so the
body-only hit "alpha" precedes the title hit "beta" — refuting the claim
that every title-hit keyword precedes every body-only-hit keyword. -/
theorem c4_counterexample :
    findKeywords (gs "beta") (gs "alpha") [gs "alpha", gs "beta"]
      = [gs "alpha", gs "beta"]
    ∧ goContains (goToLower (gs "beta")) (gs "beta") = true
    ∧ goContains (goToLower (gs "beta")) (gs "alpha") = false
    ∧ goContains (goToLower (gs "alpha")) (gs "alpha") = true := by decide

/-- Claim C4 (amended): the matcher scans the criteria in order, checking
each keyword against the lower-cased title first and then the lower-cased
body; the found-keyword list is exactly the criteria keywords occurring in
the title or the body, in criteria order — so each criterion keyword appears
at most once and a title keyword is never re-reported from the body, but
title hits do not in general precede body-only hits. -/
theorem c4_keyword_scan (title text : GoStr) (keywords : List GoStr) :
    findKeywords title text keywords
      = keywords.filter (fun kw =>
          goContains (goToLower title) kw || goContains (goToLower text) kw) :=
  findKeywords_eq_filter title text keywords

set_option maxRecDepth 10000 in
/-- Claim C5, evaluation at the failing input: with `MaxResults = 50` and a
feed whose single (hence final, short) page yields 60 announcements,
`FetchAnnouncements` returns all 60 — exceeding the cap, because the
short-page break happens before the cap check and skips the trim. -/
theorem c5_cap_exceeded :
    (FetchAnnouncements (fun _ => some (2026, 3, 2))
      [List.replicate 60 ⟨gs "2026-03-02T10:00:00Z", gs "doc1", gs "Headline", gs "AAA"⟩]
      none 50).length = 60 := by decide

set_option maxRecDepth 10000 in
/-- Claim C9, evaluation at the failing input: for a text of 150 copies of
U+023A (2 UTF-8 bytes each; lower-case U+2C65 is 3 bytes) followed by "X",
searching for "x" finds byte index 450 in the lower-cased text while the
original text is only 301 bytes long, so `start = 400 > end = 301` and the
Go slice expression panics (modelled as `none`). -/
theorem c9_snippet_panics :
    getSnippet (List.replicate 150 0x23A ++ [0x58]) (gs "x") = none
    ∧ goIndex (goToLower (List.replicate 150 0x23A ++ [0x58])) (goToLower (gs "x"))
        = some 450
    ∧ byteLen (List.replicate 150 0x23A ++ [0x58]) = 301 := by decide

/-- Claim C6: when the lower-cased keyword occurs at byte index `i` of the
lower-cased text (and the slice bounds are valid, which the source takes for
granted — see the C9 analysis), `getSnippet` returns the byte window from
`max(i-50, 0)` to `min(i + len(keyword) + 50, len(text))` of the original
text, prefixed with "... " exactly when the window start is positive (so an
occurrence starting at or before byte 50 gets no leading ellipsis), suffixed
with " ..." exactly when the clamped window end is strictly below the text's
byte length (which it never exceeds), with every newline replaced by a
space. -/
theorem c6_snippet_boundaries (text kw : GoStr) (i : Nat)
    (hidx : goIndex (goToLower text) (goToLower kw) = some i)
    (hok : i - 50 ≤ min (i + byteLen (goToLower kw) + 50) (byteLen text)) :
    getSnippet text kw = some
      (((if 0 < i - 50 then gs "... " else []) ++
        ((encodeUtf8 text).drop (i - 50)).take
          (min (i + byteLen (goToLower kw) + 50) (byteLen text) - (i - 50)) ++
        (if min (i + byteLen (goToLower kw) + 50) (byteLen text) < byteLen text
          then gs " ..." else [])).map (fun b => if b = 10 then 32 else b))
    ∧ (i < 50 → i - 50 = 0)
    ∧ min (i + byteLen (goToLower kw) + 50) (byteLen text) ≤ byteLen text
    ∧ ∀ b ∈ (getSnippet text kw).getD [], b ≠ 10 := by
  have h1 : getSnippet text kw = some
      (((if 0 < i - 50 then gs "... " else []) ++
        ((encodeUtf8 text).drop (i - 50)).take
          (min (i + byteLen (goToLower kw) + 50) (byteLen text) - (i - 50)) ++
        (if min (i + byteLen (goToLower kw) + 50) (byteLen text) < byteLen text
          then gs " ..." else [])).map (fun b => if b = 10 then 32 else b)) := by
    simp only [getSnippet]
    rw [hidx]
    simp only [if_pos hok]
  refine ⟨h1, fun hlt => by omega, Nat.min_le_right _ _, ?_⟩
  intro b hb
  rw [h1] at hb
  simp only [Option.getD_some] at hb
  obtain ⟨b', _, rfl⟩ := List.mem_map.mp hb
  by_cases hb' : b' = 10 <;> simp [hb']

set_option maxRecDepth 10000 in
/-- Witness for C6: a keyword 60 bytes into a 128-byte text gets both a
leading and (via the general theorem) correctly clamped window end. -/
theorem c6_witness :
    goIndex (goToLower (List.replicate 60 97 ++ (gs "dividend" ++ List.replicate 60 98)))
        (goToLower (gs "dividend")) = some 60
    ∧ min (60 + byteLen (goToLower (gs "dividend")) + 50)
        (byteLen (List.replicate 60 97 ++ (gs "dividend" ++ List.replicate 60 98)))
      ≤ byteLen (List.replicate 60 97 ++ (gs "dividend" ++ List.replicate 60 98)) :=
  ⟨by decide,
    (c6_snippet_boundaries
      (List.replicate 60 97 ++ (gs "dividend" ++ List.replicate 60 98))
      (gs "dividend") 60 (by decide) (by decide)).2.2.1⟩

/-- Claim C7: across every race outcome of the extraction `select`, a
successful return of `extractTextFromPDF` carries text whose trimmed form is
non-blank; a run in which the tool completed with blank output returns an
empty string together with an error, and on the normal path (no temp-file
hiccups) the worker's verdict for blank output is exactly the
`EmptyExtraction` failure. -/
theorem c7_no_blank_success (tmpOk closeOk writeOk : Bool) (cmd : CmdRun)
    (o : GoStr × Option ExtractErr)
    (ho : extractOutcome (workerSends tmpOk closeOk writeOk cmd) o) :
    (o.2 = none → trimSpace o.1 ≠ [])
    ∧ (∀ stdout, cmd = CmdRun.completed stdout → trimSpace stdout = [] →
        o.1 = [] ∧ o.2 ≠ none)
    ∧ (∀ stdout, cmd = CmdRun.completed stdout → trimSpace stdout = [] →
        workerSends true true true cmd = ([ExtractErr.emptyExtraction], none)) := by
  refine ⟨?_, ?_, ?_⟩
  · intro hn
    rcases ho with ⟨e, _, rfl⟩ | ⟨t, hst, rfl⟩ | rfl
    · simp at hn
    · exact workerSends_result _ _ _ _ _ hst
    · simp at hn
  · intro stdout hcmd hb
    subst hcmd
    have h2 := workerSends_blank tmpOk closeOk writeOk stdout hb
    rcases ho with ⟨e, _, rfl⟩ | ⟨t, hst, rfl⟩ | rfl
    · exact ⟨rfl, by simp⟩
    · rw [h2] at hst; cases hst
    · exact ⟨rfl, by simp⟩
  · intro stdout hcmd hb
    subst hcmd
    simp [workerSends, hb]

/-- Witness for C7: the tool completes with whitespace-only output and the
run returns the empty string and an error. -/
theorem c7_witness :
    (([], some ExtractErr.emptyExtraction) : GoStr × Option ExtractErr).1 = []
    ∧ (([], some ExtractErr.emptyExtraction) : GoStr × Option ExtractErr).2 ≠ none :=
  (c7_no_blank_success true true true (.completed (gs "  "))
    ([], some ExtractErr.emptyExtraction)
    (Or.inl ⟨ExtractErr.emptyExtraction, by decide, rfl⟩)).2.1 (gs "  ") rfl (by decide)

/-- Claim C8: whenever the history filter's result is exactly the single
sentinel token, the pipeline emits a `Match` with an empty keyword list,
`TickerMatched = true` (the sentinel can only arise from the ticker branch:
a lower-cased title or body never contains the upper-case sentinel), and the
synthetic context snippet naming the ticker; the sentinel itself never
appears in the emitted keyword list. -/
theorem c8_ticker_only_match (hist : History) (ann : Announcement)
    (keywords tickers : List GoStr) (text : GoStr)
    (hyp : applyHistoryFilter ann (findKeywords ann.Title text keywords)
        (isTickerMatch ann.Ticker tickers) (fun a k t => FilterNewMatches hist a k t)
      = [tickerMatchPlaceholder]) :
    filterAndAnnotate hist ann keywords tickers text
      = .emitted ⟨ann, [], true,
          encodeUtf8 (gs "Match found based on ticker " ++ ann.Ticker ++ gs " only.")⟩ := by
  have htm : isTickerMatch ann.Ticker tickers = true := by
    cases hcase : isTickerMatch ann.Ticker tickers with
    | true => rfl
    | false =>
      exfalso
      rw [hcase] at hyp
      simp only [applyHistoryFilter, Bool.false_and, Bool.false_eq_true, if_false] at hyp
      have hmem : tickerMatchPlaceholder
          ∈ FilterNewMatches hist ann (findKeywords ann.Title text keywords) false := by
        rw [hyp]; simp
      exact findKeywords_no_placeholder ann.Title text keywords
        (FilterNewMatches_mem_cands hist ann _ _ hmem)
  rw [htm] at hyp
  simp only [filterAndAnnotate, htm]
  rw [hyp]
  simp [normalizePlaceholder, buildContextSnippet]

/-- Witness for C8: ticker-only criteria on a fresh history emit the
synthetic ticker match. -/
theorem c8_witness :
    filterAndAnnotate ⟨gs "2026-10-11", []⟩ ⟨gs "XYZ", none, gs "T", gs "u", false⟩
        [] [gs "XYZ"] (gs "body text")
      = .emitted ⟨⟨gs "XYZ", none, gs "T", gs "u", false⟩, [], true,
          encodeUtf8 (gs "Match found based on ticker " ++ gs "XYZ" ++ gs " only.")⟩ :=
  c8_ticker_only_match ⟨gs "2026-10-11", []⟩ ⟨gs "XYZ", none, gs "T", gs "u", false⟩
    [] [gs "XYZ"] (gs "body text") (by decide)

/-- Claim C10: every announcement produced by either feed fetcher carries a
non-empty document reference: the HTML traversal appends a row only when its
`PDFURL` is non-empty (for any cell processor and filter setting), and the
Markit fetcher skips empty document keys and always prepends the non-empty
base URL. -/
theorem c10_pdf_nonempty :
    (∀ (p : HNode → Nat → Announcement → Announcement) (fps : Bool) (doc : HNode),
      ∀ a ∈ traverseAndCollect p fps doc, a.PDFURL ≠ [])
    ∧ (∀ (pd : GoStr → Option (Nat × Nat × Nat)) (pages : List (List MarkitItem))
        (td : Option (Nat × Nat × Nat)) (mr : Nat),
        ∀ a ∈ FetchAnnouncements pd pages td mr, a.PDFURL ≠ []) := by
  constructor
  · intro p fps doc a ha
    simp only [traverseAndCollect] at ha
    exact traverseNode_pdf_nonempty p fps doc (false, []) (by simp) a ha
  · intro pd pages td mr a ha
    simp only [FetchAnnouncements] at ha
    exact fetchLoop_pdf_nonempty pd td mr pages [] (by simp) a ha

/-- Witness for C10: the single announcement fetched from a one-item Markit
page has a non-empty document URL. -/
theorem c10_witness :
    (⟨gs "AAA", some (2026, 3, 2), gs "H",
        markitPDFBaseURL ++ gs "/" ++ gs "doc1", true⟩ : Announcement)
      ∈ FetchAnnouncements (fun _ => some (2026, 3, 2))
          [[⟨gs "2026-03-02T10:00:00Z", gs "doc1", gs "H", gs "AAA"⟩]] none 0
    ∧ (⟨gs "AAA", some (2026, 3, 2), gs "H",
        markitPDFBaseURL ++ gs "/" ++ gs "doc1", true⟩ : Announcement).PDFURL ≠ [] :=
  ⟨by decide,
    c10_pdf_nonempty.2 (fun _ => some (2026, 3, 2))
      [[⟨gs "2026-03-02T10:00:00Z", gs "doc1", gs "H", gs "AAA"⟩]] none 0
      ⟨gs "AAA", some (2026, 3, 2), gs "H",
        markitPDFBaseURL ++ gs "/" ++ gs "doc1", true⟩ (by decide)⟩

end Annscraper
